import Mathlib

/-!
Verification of the cross-app access fetch middleware
(`CrossAppAccessMiddleware` and its utility module).

The TypeScript source is embedded shallowly:

* pure string manipulation (`parseWwwAuthenticate`, `buildFormData`-free
  parts, `cloneRequestWithAuth`, `getResourceUrl`, `isUnauthorized`) becomes
  pure Lean functions over `String` / `List Char`;
* asynchronous methods become pure functions over an explicit state
  (token cache, pending-acquisition map) plus an environment record that
  fixes the outcome of each awaited collaborator (network responses,
  hook results, external cache results) — the JavaScript event loop runs
  each code segment between `await`s atomically, so each method is a
  function of its state and those outcomes;
* thrown errors / rejected promises become `Except String`;
* JavaScript numbers holding `Date.now()` / `expires_in` arithmetic become
  `Int` (the values involved are integral and far below 2^53, where
  JavaScript number arithmetic is exact).
-/

/-! ## Character classes used by the regular expressions in utils.ts -/

/-- Character class of JavaScript regex `\w`: ASCII letters, digits, `_`. -/
def isWordChar (c : Char) : Bool :=
  ('a' ≤ c && c ≤ 'z') || ('A' ≤ c && c ≤ 'Z') || ('0' ≤ c && c ≤ '9') || c == '_'

/-- Character class of JavaScript regex `\s`, restricted to ASCII
whitespace (header values are ASCII; the Unicode space characters that
`\s` additionally matches cannot occur in an HTTP header value). -/
def isJsSpace (c : Char) : Bool :=
  c == ' ' || c == '\t' || c == '\n' || c == '\r' || c == '\x0b' || c == '\x0c'

/-- A character that terminates an unquoted parameter value, i.e. one
excluded by `[^\s,]` in the parameter regex of `parseWwwAuthenticate`. -/
def isValueStop (c : Char) : Bool :=
  isJsSpace c || c == ','

/-- ASCII lower-casing of a string (models JavaScript `toLowerCase` /
the case-insensitive header-name comparison of the Fetch `Headers` class
for ASCII names). -/
def lowerStr (s : String) : String :=
  String.mk (s.data.map Char.toLower)

/-! ## parseWwwAuthenticate (utils.ts lines 14-53)

The JS code extracts the scheme with `/^(\w+)/` and then repeatedly
applies `/(\w+)=(?:"([^"]*)"|([^\s,]*))/g` with `exec`, i.e. it finds the
leftmost match of `key=value` from the current position, where `key` is a
maximal `\w`-run (the characters before a candidate `=` are word
characters and the run cannot be extended, because `=` is not a word
character), and the value is either a quoted string up to the first
closing quote or a maximal run of non-space non-comma characters
(possibly empty).  `const value = match[2] || match[3]` makes an *empty
quoted* value come out as JavaScript `undefined` (modelled as `none`),
while an empty unquoted value comes out as the empty string. -/

/-- Split a character list at the first quote character, as
`some (before, after)`, or
`none` when the list contains no quote (the quoted alternative
`"([^"]*)"` of the regex then fails to match). -/
def takeUntilQuote : List Char → Option (List Char × List Char)
  | [] => none
  | c :: cs =>
    if c == '"' then some ([], cs)
    else
      match takeUntilQuote cs with
      | some (pre, post) => some (c :: pre, post)
      | none => none

/-- The unquoted alternative `([^\s,]*)` of the value regex: a maximal
(possibly empty) run of non-space, non-comma characters.  The resulting
JavaScript value is the matched string itself (`match[2] || match[3]`
evaluates to `match[3]`, even when it is empty). -/
def unquotedValue (vs : List Char) : Option String × List Char :=
  (some (String.mk (vs.takeWhile (fun c => !(isValueStop c)))),
   vs.dropWhile (fun c => !(isValueStop c)))

/-- Match the value part `(?:"([^"]*)"|([^\s,]*))` at the head of `vs`,
returning the JavaScript value `match[2] || match[3]` and the remaining
input after the match.  A quoted empty string yields `none` because
`"" || undefined` is `undefined` in JavaScript. -/
def matchValue : List Char → Option String × List Char
  | [] => unquotedValue []
  | c :: ws =>
    if c == '"' then
      match takeUntilQuote ws with
      | some (content, rest) =>
        (if content.isEmpty then none else some (String.mk content), rest)
      | none => unquotedValue (c :: ws)
    else unquotedValue (c :: ws)

/-- One `exec` step of the global parameter regex: find the leftmost
`key=value` match in `s` and return the key, the JavaScript value and the
input remaining after the match.  The fuel argument only serves
termination; `scanMatch` instantiates it with the input length, which is
always sufficient because every recursive call strictly shrinks the
input. -/
def scanMatchF : Nat → List Char → Option (String × Option String × List Char)
  | 0, _ => none
  | _ + 1, [] => none
  | fuel + 1, c :: cs =>
    if isWordChar c then
      let afterRun := cs.dropWhile isWordChar
      if afterRun.head? == some '=' then
        some (String.mk (c :: cs.takeWhile isWordChar),
              (matchValue afterRun.tail).1, (matchValue afterRun.tail).2)
      else scanMatchF fuel afterRun
    else scanMatchF fuel cs

/-- Leftmost match of `/(\w+)=(?:"([^"]*)"|([^\s,]*))/` in `s`. -/
def scanMatch (s : List Char) : Option (String × Option String × List Char) :=
  scanMatchF s.length s

/-- All matches of the global parameter regex, in order (the `while
(match = paramRegex.exec(headerValue))` loop). -/
def parseParamsF : Nat → List Char → List (String × Option String)
  | 0, _ => []
  | fuel + 1, s =>
    match scanMatch s with
    | none => []
    | some (k, v, rest) => (k, v) :: parseParamsF fuel rest

/-- All `key=value` matches of the parameter regex over the full header
value. -/
def parseParams (s : List Char) : List (String × Option String) :=
  parseParamsF s.length s

/-- The challenge structure produced by `parseWwwAuthenticate`
(types.ts `WwwAuthenticateChallenge`): all parameter fields optional,
`scheme` initialised to the empty string. -/
structure WwwAuthenticateChallenge where
  scheme : String := ""
  realm : Option String := none
  scope : Option String := none
  error : Option String := none
  error_description : Option String := none
  resource_metadata : Option String := none
  deriving Repr, DecidableEq

/-- The `switch (key)` statement: assign a matched value to the
corresponding challenge field when the key is recognized, ignore the
match otherwise. -/
def applyParam (ch : WwwAuthenticateChallenge) (kv : String × Option String) :
    WwwAuthenticateChallenge :=
  match kv.1 with
  | "realm" => { ch with realm := kv.2 }
  | "scope" => { ch with scope := kv.2 }
  | "error" => { ch with error := kv.2 }
  | "error_description" => { ch with error_description := kv.2 }
  | "resource_metadata" => { ch with resource_metadata := kv.2 }
  | _ => ch

/-- utils.ts `parseWwwAuthenticate`: extract the scheme with `/^(\w+)/`
(the maximal leading `\w`-run, empty when the header does not start with
a word character) and fold every `key=value` match of the parameter regex
into the challenge. -/
def parseWwwAuthenticate (headerValue : String) : WwwAuthenticateChallenge :=
  (parseParams headerValue.data).foldl applyParam
    { scheme := String.mk (headerValue.data.takeWhile isWordChar) }

/-! ## discoverAuthorizationServerMetadata (utils.ts lines 81-113) -/

/-- `issuerUrl.replace(/\/$/, '')`: remove one trailing slash if present
(the regex is not global, so at most one slash is removed). -/
def stripTrailingSlash (s : String) : String :=
  if s.data.getLast? == some '/' then String.mk s.data.dropLast else s

/-- Outcome of one `fetchFn(url)` call followed by `response.json()`, as
observed by the discovery code: the fetch promise may reject
(`networkError`), or produce a response with an `ok` flag and a body that
either parses as JSON (`some body`) or makes `response.json()` reject
(`none`). -/
inductive FetchOutcome (α : Type) where
  | networkError
  | response (ok : Bool) (body : Option α)
  deriving Repr, DecidableEq

/-- The condition under which a `try` block of
`discoverAuthorizationServerMetadata` returns: the fetch resolved, the
response was 2xx, and its body parsed as JSON. -/
def usableDiscoveryResult {α : Type} : FetchOutcome α → Option α
  | .response true (some v) => some v
  | _ => none

/-- utils.ts `discoverAuthorizationServerMetadata`: strip one trailing
slash from the issuer, fetch
`baseUrl + "/.well-known/oauth-authorization-server"`; any failure in
that `try` block (rejected fetch, non-2xx response, or `response.json()`
rejecting) is swallowed and
`baseUrl + "/.well-known/openid-configuration"` is fetched the same way;
if neither attempt yields a parsed body, throw an error naming the
original issuer URL.  The second component records the URLs actually
fetched, in order. -/
def discoverAuthorizationServerMetadata {α : Type}
    (fetchFn : String → FetchOutcome α) (issuerUrl : String) :
    Except String α × List String :=
  let baseUrl := stripTrailingSlash issuerUrl
  let oauth2MetadataUrl := baseUrl ++ "/.well-known/oauth-authorization-server"
  match usableDiscoveryResult (fetchFn oauth2MetadataUrl) with
  | some v => (.ok v, [oauth2MetadataUrl])
  | none =>
    let oidcMetadataUrl := baseUrl ++ "/.well-known/openid-configuration"
    match usableDiscoveryResult (fetchFn oidcMetadataUrl) with
    | some v => (.ok v, [oauth2MetadataUrl, oidcMetadataUrl])
    | none =>
      (.error ("Failed to discover authorization server metadata for " ++ issuerUrl),
       [oauth2MetadataUrl, oidcMetadataUrl])

/-! ## Headers, Request, Response (the Fetch primitives the code uses) -/

/-- The Fetch `Headers` class, reduced to the operations the middleware
uses (`new Headers(h)`, `get`, `set`).  Header names compare
case-insensitively. -/
structure Headers where
  entries : List (String × String)
  deriving Repr, DecidableEq

/-- `headers.get(name)`: the value of the header whose name matches
case-insensitively (HTTP headers occur at most once in the requests the
middleware builds, so returning the first match is exact). -/
def Headers.get (h : Headers) (name : String) : Option String :=
  (h.entries.find? (fun e => lowerStr e.1 == lowerStr name)).map (fun e => e.2)

/-- `headers.set(name, value)`: replace every value stored under the
case-insensitive name with the single new value. -/
def Headers.set (h : Headers) (name value : String) : Headers :=
  ⟨h.entries.filter (fun e => !(lowerStr e.1 == lowerStr name)) ++ [(name, value)]⟩

/-- The parts of a Fetch `Request` the middleware reads or copies.  The
source also copies `referrer`, `referrerPolicy`, `mode`, `credentials`,
`cache`, `redirect` and `integrity` verbatim in `cloneRequestWithAuth`;
they play no role in any claim and behave exactly like `method`. -/
structure Request where
  url : String
  method : String
  headers : Headers
  body : Option String
  deriving Repr, DecidableEq

/-- The parts of a Fetch `Response` the middleware reads. -/
structure Response where
  status : Nat
  statusText : String
  headers : Headers
  deriving Repr, DecidableEq

/-- utils.ts `isUnauthorized`: `response.status === 401`. -/
def isUnauthorized (response : Response) : Bool :=
  response.status == 401

/-- Helper for `urlOrigin`: split an absolute URL after the first
`://`, returning the prefix including the separator and the remainder. -/
def splitSchemeSep : List Char → Option (List Char × List Char)
  | [] => none
  | ':' :: '/' :: '/' :: rest => some ([':', '/', '/'], rest)
  | c :: rest => (splitSchemeSep rest).map (fun pr => (c :: pr.1, pr.2))

/-- `new URL(url).origin` for the absolute `http(s)` URLs the middleware
handles: scheme, `://`, and the authority up to the first `/`, `?` or
`#`; path, query and fragment are dropped.  (The URL class additionally
lower-cases the host and elides default ports; the URLs in this
development are already in that normal form.) -/
def urlOrigin (url : String) : String :=
  match splitSchemeSep url.data with
  | some (pre, rest) =>
    String.mk (pre ++ rest.takeWhile (fun c => !(c == '/') && !(c == '?') && !(c == '#')))
  | none => url

/-- utils.ts `getResourceUrl`: the origin of the request's URL. -/
def getResourceUrl (request : Request) : String :=
  urlOrigin request.url

/-- utils.ts `cloneRequestWithAuth`: copy the request, with the
`Authorization` header set to `Bearer ` followed by the access token
(overwriting any existing value under that case-insensitive name). -/
def cloneRequestWithAuth (request : Request) (accessToken : String) : Request :=
  { url := request.url
    method := request.method
    headers := Request.headers request |>.set "Authorization" ("Bearer " ++ accessToken)
    body := request.body }

/-! ## Token cache and JWT bearer grant (middleware lines 279-351) -/

/-- An entry of the internal token cache (`tokenCache` map values). -/
structure CachedToken where
  token : String
  expiresAt : Int
  deriving Repr, DecidableEq

/-- `map.get(key)` for the string-keyed maps of the middleware, with the
map modelled as an association list. -/
def mapFind (l : List (String × CachedToken)) (k : String) : Option CachedToken :=
  (l.find? (fun e => e.1 == k)).map (fun e => e.2)

/-- `map.delete(key)`. -/
def mapErase (l : List (String × CachedToken)) (k : String) : List (String × CachedToken) :=
  l.filter (fun e => !(e.1 == k))

/-- `map.set(key, value)`: at most one entry per key. -/
def mapSet (l : List (String × CachedToken)) (k : String) (v : CachedToken) :
    List (String × CachedToken) :=
  mapErase l k ++ [(k, v)]

/-- The JSON body of a token-endpoint response, with every field the
code may read (RFC 8693 / RFC 7523 response plus OAuth error fields; the
object is dynamic in JS, so error fields can coexist with the rest). -/
structure AccessTokenResponse where
  access_token : String
  token_type : Option String := none
  expires_in : Option Int := none
  scope : Option String := none
  error : Option String := none
  error_description : Option String := none
  deriving Repr, DecidableEq

/-- JavaScript truthiness of an optional string: `undefined` and `""`
are falsy. -/
def jsTruthy : Option String → Option String
  | some s => if s == "" then none else some s
  | none => none

/-- utils.ts `extractOAuthError`: if the body parsed as JSON and has a
truthy `error` field, return `error_description || error`; otherwise
fall back to `HTTP <status> <statusText>`. -/
def extractOAuthError (status : Nat) (statusText : String)
    (body : Option AccessTokenResponse) : String :=
  let fallback := "HTTP " ++ toString status ++ " " ++ statusText
  match body with
  | some b =>
    match jsTruthy b.error with
    | some e =>
      match jsTruthy b.error_description with
      | some d => d
      | none => e
    | none => fallback
  | none => fallback

/-- Outcome of the `fetchFn(tokenEndpoint, {...})` call in
`performJwtBearerGrant`, including the subsequent `response.json()`:
the fetch may reject, or return a response whose body may fail to parse. -/
inductive TokenHttpResult where
  | thrown (e : String)
  | response (ok : Bool) (status : Nat) (statusText : String) (body : Option AccessTokenResponse)
  deriving Repr, DecidableEq

/-- Middleware `performJwtBearerGrant` (lines 287-327): POST the JWT
bearer grant; on non-2xx throw with the extracted OAuth error; on 2xx
parse the body, compute `expiresIn = tokenResponse.expires_in || 3600`
(JavaScript `||`, so `0` also falls back to 3600) and
`expiresAt = Date.now() + expiresIn * 1000 - 60000`, store the token in
`tokenCache` under `getResourceUrl(new Request(tokenEndpoint))` — the
origin of the *token endpoint* — then `await` the configured
`onAccessTokenReceived` hook (its rejection propagates, after the cache
write) and return the access token.  `hookResult` is `none` when no hook
is configured. -/
def performJwtBearerGrant (tokenCache : List (String × CachedToken))
    (idJag : String) (tokenEndpoint : String) (httpResult : TokenHttpResult)
    (now : Int) (hookResult : Option (Except String Unit)) :
    Except String String × List (String × CachedToken) :=
  match httpResult with
  | .thrown e => (.error e, tokenCache)
  | .response ok status statusText body =>
    if !ok then
      (.error ("JWT bearer grant failed: " ++ extractOAuthError status statusText body),
       tokenCache)
    else
      match body with
      | none => (.error "Unexpected token in JSON response", tokenCache)
      | some tokenResponse =>
        let expiresIn : Int :=
          match tokenResponse.expires_in with
          | some n => if n == 0 then 3600 else n
          | none => 3600
        let expiresAt := now + expiresIn * 1000 - 60000
        let cacheAfter := mapSet tokenCache (urlOrigin tokenEndpoint)
          { token := tokenResponse.access_token, expiresAt := expiresAt }
        match hookResult with
        | some (.error e) => (.error e, cacheAfter)
        | _ => (.ok tokenResponse.access_token, cacheAfter)

/-- The internal-cache part of `getCachedToken` (lines 344-350):
`tokenCache.get(resourceUrl)`, returned only while
`cached.expiresAt > Date.now()`; an expired entry is left in the map and
simply not returned (lazy eviction, no background sweep). -/
def internalCachedToken (tokenCache : List (String × CachedToken))
    (resourceUrl : String) (now : Int) : Option String :=
  match mapFind tokenCache resourceUrl with
  | some cached => if cached.expiresAt > now then some cached.token else none
  | none => none

/-- Middleware `getCachedToken` (lines 335-351): consult the optional
external `getCachedAccessToken` first and return its result when truthy
(`externalResult` is `none` when the hook is absent or returned `null`),
otherwise fall back to the internal cache. -/
def getCachedToken (externalResult : Option String)
    (tokenCache : List (String × CachedToken)) (resourceUrl : String) (now : Int) :
    Option String :=
  match externalResult with
  | some c => if !(c == "") then some c else internalCachedToken tokenCache resourceUrl now
  | none => internalCachedToken tokenCache resourceUrl now

/-! ## acquireAccessToken deduplication (middleware lines 136-157)

`pendingTokenRequests : Map<string, Promise<string>>` maps a resource
key to the promise of an in-flight acquisition.  A promise is modelled
by its eventual settlement: `AcqOutcome.success tok` for fulfilment,
`AcqOutcome.failure e` for rejection.  The method's code from the
`pendingTokenRequests.get` check to the `set` runs without an
intervening `await`, so on the JavaScript event loop the check and the
registration are atomic; the model therefore treats them as one step. -/

/-- Settlement of an acquisition promise. -/
inductive AcqOutcome where
  | success (token : String)
  | failure (e : String)
  deriving Repr, DecidableEq

/-- `pendingTokenRequests.get(key)`. -/
def pendingFind (l : List (String × AcqOutcome)) (k : String) : Option AcqOutcome :=
  (l.find? (fun e => e.1 == k)).map (fun e => e.2)

/-- `pendingTokenRequests.delete(key)`. -/
def pendingErase (l : List (String × AcqOutcome)) (k : String) :
    List (String × AcqOutcome) :=
  l.filter (fun e => !(e.1 == k))

/-- Everything observable about one `acquireAccessToken` call:
whether it invoked `performTokenAcquisition`, what the caller receives,
the pending map while the call was awaiting, and the pending map after
the call settled. -/
structure AcquireResult where
  startedNewAcquisition : Bool
  outcome : AcqOutcome
  pendingDuring : List (String × AcqOutcome)
  pendingAfter : List (String × AcqOutcome)
  deriving Repr, DecidableEq

/-- Middleware `acquireAccessToken`: if a request is pending for the
resource, await and return that same promise without starting another
acquisition; otherwise register a fresh acquisition promise
(`freshOutcome` is its settlement), await it, and remove the entry in a
`finally` block, i.e. whether the promise fulfils or rejects. -/
def acquireAccessToken (pending : List (String × AcqOutcome))
    (resourceUrl : String) (freshOutcome : AcqOutcome) : AcquireResult :=
  match pendingFind pending resourceUrl with
  | some p =>
    { startedNewAcquisition := false, outcome := p
      pendingDuring := pending, pendingAfter := pending }
  | none =>
    let during := (resourceUrl, freshOutcome) :: pending
    { startedNewAcquisition := true, outcome := freshOutcome
      pendingDuring := during, pendingAfter := pendingErase during resourceUrl }

/-! ## The fetch orchestrator (middleware lines 60-125)

`middlewareFetch` models one top-level `CrossAppAccessMiddleware.fetch`
call.  The environment fixes the outcome of each awaited collaborator;
the event list records, in order, every outbound request to the target
resource (`targetSend`), the eviction of a stale cache entry
(`evictCached`), and the invocation of `acquireAccessToken`
(`acquisitionRun`) — all discovery and exchange traffic happens inside
the latter. -/

/-- Observable actions of one orchestrated fetch. -/
inductive Event where
  | targetSend (request : Request)
  | evictCached (resourceUrl : String)
  | acquisitionRun (resourceUrl : String) (metadataUrl : String) (scope : Option String)
  deriving Repr, DecidableEq

/-- Outcomes of the awaited collaborators of one top-level fetch call. -/
structure FetchEnv where
  externalCached : Option String
  now : Int
  cachedAttemptResponse : Response
  bareResponse : Response
  acquisition : Except String String
  retryResponse : Response
  deriving Repr

/-- Middleware `handleUnauthorized` (lines 99-125): read
`WWW-Authenticate`; with no header or a scheme other than the exact
string `Bearer`, return the 401 response unchanged; with a Bearer
challenge lacking `resource_metadata`, throw; otherwise run
`acquireAccessToken` and, on its success, send the original request once
more with the new token. -/
def handleUnauthorized (request : Request) (response : Response)
    (acquisition : Except String String) (retryResponse : Response) :
    Except String Response × List Event :=
  match Response.headers response |>.get "WWW-Authenticate" with
  | none => (.ok response, [])
  | some wwwAuth =>
    let challenge := parseWwwAuthenticate wwwAuth
    if !(challenge.scheme == "Bearer") then (.ok response, [])
    else
      match challenge.resource_metadata with
      | none => (.error "WWW-Authenticate header missing resource_metadata URL", [])
      | some metadataUrl =>
        match acquisition with
        | .error e =>
          (.error e, [Event.acquisitionRun (getResourceUrl request) metadataUrl challenge.scope])
        | .ok accessToken =>
          (.ok retryResponse,
           [Event.acquisitionRun (getResourceUrl request) metadataUrl challenge.scope,
            Event.targetSend (cloneRequestWithAuth request accessToken)])

/-- Lines 80-89 of `fetch`: the bare attempt (reached with no usable
cached token, or after a cached token was rejected and evicted) and the
401 handler. -/
def middlewareBareFlow (request : Request) (env : FetchEnv)
    (eventsSoFar : List Event) : Except String Response × List Event :=
  let evs := eventsSoFar ++ [Event.targetSend request]
  if !(isUnauthorized env.bareResponse) then (.ok env.bareResponse, evs)
  else
    let hu := handleUnauthorized request env.bareResponse env.acquisition env.retryResponse
    (hu.1, evs ++ hu.2)

/-- Middleware `fetch` (lines 60-90): look up a cached token; when one
exists, send the request with it and return any non-401 response; on a
401, delete the cache entry for the resource key and fall through to the
bare attempt; the bare attempt returns any non-401 response and hands a
401 to `handleUnauthorized`. -/
def middlewareFetch (tokenCache : List (String × CachedToken))
    (request : Request) (env : FetchEnv) : Except String Response × List Event :=
  let resourceUrl := getResourceUrl request
  match getCachedToken env.externalCached tokenCache resourceUrl env.now with
  | some cachedTok =>
    if !(isUnauthorized env.cachedAttemptResponse) then
      (.ok env.cachedAttemptResponse,
       [Event.targetSend (cloneRequestWithAuth request cachedTok)])
    else
      middlewareBareFlow request env
        [Event.targetSend (cloneRequestWithAuth request cachedTok),
         Event.evictCached resourceUrl]
  | none => middlewareBareFlow request env []

/-- Whether an event is an outbound request to the target resource. -/
def isTargetSend : Event → Bool
  | .targetSend _ => true
  | _ => false

/-- Number of outbound requests to the target resource in a trace. -/
def countTargetSends (events : List Event) : Nat :=
  events.countP isTargetSend

/-! ## Well-formed challenge headers (statement harness for the parser)

To quantify over "every valid Bearer challenge header" we render one
from structured data: a scheme token followed by comma-separated
`key=value` parameters, each independently quoted or unquoted.
Well-formedness captures RFC 7235 challenge syntax as restricted to the
characters that survive both quoting styles: keys are nonempty `\w`
tokens occurring at most once (RFC 7235 forbids repeated auth-params),
unquoted values are nonempty `token` strings without spaces, commas or
quotes, and quoted values are nonempty quoted-string contents without
embedded quotes. -/

/-- One rendered auth-param. -/
structure ParamSpec where
  key : String
  value : String
  quoted : Bool
  deriving Repr, DecidableEq

/-- Characters of one rendered auth-param. -/
def paramChars (p : ParamSpec) : List Char :=
  if p.quoted then p.key.data ++ '=' :: '"' :: (p.value.data ++ ['"'])
  else p.key.data ++ '=' :: p.value.data

/-- Characters of a comma-space separated auth-param list. -/
def paramsChars : List ParamSpec → List Char
  | [] => []
  | [p] => paramChars p
  | p :: q :: r => paramChars p ++ ',' :: ' ' :: paramsChars (q :: r)

/-- A full challenge header: scheme token, one space, the parameters. -/
def renderChallengeHeader (scheme : String) (ps : List ParamSpec) : String :=
  String.mk (scheme.data ++ ' ' :: paramsChars ps)

/-- A nonempty `\w`-token. -/
def goodToken (k : String) : Bool :=
  !k.data.isEmpty && k.data.all isWordChar

/-- A character allowed in an unquoted value: not whitespace, not a
comma, not a quote. -/
def goodValueChar (c : Char) : Bool :=
  !(isValueStop c) && !(c == '"')

/-- A well-formed auth-param. -/
def goodParam (p : ParamSpec) : Bool :=
  goodToken p.key &&
    (if p.quoted then !p.value.data.isEmpty && p.value.data.all (fun c => !(c == '"'))
     else !p.value.data.isEmpty && p.value.data.all goodValueChar)

/-- A well-formed challenge: word-token scheme, well-formed parameters,
no repeated parameter name. -/
def GoodHeader (scheme : String) (ps : List ParamSpec) : Prop :=
  goodToken scheme = true ∧ (∀ p ∈ ps, goodParam p = true) ∧
    (ps.map ParamSpec.key).Nodup

instance (scheme : String) (ps : List ParamSpec) : Decidable (GoodHeader scheme ps) := by
  unfold GoodHeader; infer_instance

/-- The value a header declares for a parameter name, if any. -/
def declaredValue (ps : List ParamSpec) (k : String) : Option String :=
  (ps.find? (fun p => p.key == k)).map ParamSpec.value

/-- The parameter names `parseWwwAuthenticate` recognizes. -/
def recognizedKeys : List String :=
  ["realm", "scope", "error", "error_description", "resource_metadata"]

/-- Field access on a challenge by recognized parameter name (proof
harness for stating one lemma over all five recognized fields). -/
def fieldGet (name : String) (ch : WwwAuthenticateChallenge) : Option String :=
  match name with
  | "realm" => ch.realm
  | "scope" => ch.scope
  | "error" => ch.error
  | "error_description" => ch.error_description
  | "resource_metadata" => ch.resource_metadata
  | _ => none

/-! ## Shared sample data for witnesses and counterexamples -/

/-- Headers of a typical caller request, including a pre-existing
`Authorization` header. -/
def sampleHeaders : Headers :=
  ⟨[("Content-Type", "application/json"), ("Authorization", "Bearer old")]⟩

/-- A typical caller request to a protected resource. -/
def sampleRequest : Request :=
  { url := "https://mcp.example.com/mcp", method := "GET"
    headers := sampleHeaders, body := some "hello" }

/-- A 200 response. -/
def ok200 : Response := { status := 200, statusText := "OK", headers := ⟨[]⟩ }

/-- A 401 response with no `WWW-Authenticate` header. -/
def resp401NoHeader : Response :=
  { status := 401, statusText := "Unauthorized", headers := ⟨[]⟩ }

/-- A 401 response carrying a well-formed Bearer challenge with a
`resource_metadata` parameter. -/
def resp401Bearer : Response :=
  { status := 401, statusText := "Unauthorized"
    headers := ⟨[("WWW-Authenticate",
      "Bearer resource_metadata=\"https://mcp.example.com/prm\"")]⟩ }

/-- A 401 response whose challenge uses the lower-case scheme `bearer`. -/
def resp401LowerBearer : Response :=
  { status := 401, statusText := "Unauthorized"
    headers := ⟨[("WWW-Authenticate", "bearer realm=\"mcp\"")]⟩ }

/-- Fetch behaviour used to refute the claim's fallback condition: the
OAuth discovery path answers 2xx with a body that is not JSON, the OIDC
path answers 2xx with a parsed body. -/
def discoveryFetchStub : String → FetchOutcome Nat := fun u =>
  if u == "https://as.example.com/.well-known/oauth-authorization-server" then
    .response true none
  else if u == "https://as.example.com/.well-known/openid-configuration" then
    .response true (some 42)
  else .networkError

/-- Environment for the stale-cached-token scenario: the cached-token
attempt is answered 401, the bare attempt is answered 401 with a valid
Bearer challenge, acquisition succeeds, and the retry is answered 200. -/
def staleCacheEnv : FetchEnv :=
  { externalCached := none, now := 0
    cachedAttemptResponse := resp401NoHeader
    bareResponse := resp401Bearer
    acquisition := .ok "newTok"
    retryResponse := ok200 }

/-- The internal cache holding a still-unexpired token for the sample
request's resource key. -/
def staleCache : List (String × CachedToken) :=
  [("https://mcp.example.com", { token := "cachedTok", expiresAt := 1000000 })]

/-- Parameters of the witness header for the parser theorem: a quoted
`resource_metadata` and an unquoted `scope`. -/
def sampleParams : List ParamSpec :=
  [{ key := "resource_metadata", value := "https://mcp.example.com/prm", quoted := true },
   { key := "scope", value := "read", quoted := false }]

/-! ## General helper lemmas -/

/-- `find?` skips a prefix in which no element satisfies the predicate. -/
theorem find?_append_of_none {α : Type} {p : α → Bool} {l1 : List α} (l2 : List α)
    (h : l1.find? p = none) : (l1 ++ l2).find? p = l2.find? p := by
  rw [List.find?_append, h, Option.none_or]

/-- Filtering with `q` does not affect `find? p` when every element
satisfying `p` also satisfies `q`. -/
theorem find?_filter_of_imp {α : Type} (p q : α → Bool) (l : List α)
    (h : ∀ a ∈ l, p a = true → q a = true) :
    (l.filter q).find? p = l.find? p := by
  induction l with
  | nil => rfl
  | cons a t ih =>
    by_cases hq : q a = true
    · rw [List.filter_cons_of_pos hq]
      by_cases hp : p a = true
      · rw [List.find?_cons_of_pos _ hp, List.find?_cons_of_pos _ hp]
      · rw [List.find?_cons_of_neg _ hp, List.find?_cons_of_neg _ hp]
        exact ih fun b hb => h b (List.mem_cons_of_mem a hb)
    · rw [List.filter_cons_of_neg hq]
      have hp : ¬p a = true := fun hpa => hq (h a (List.mem_cons_self a t) hpa)
      rw [List.find?_cons_of_neg _ hp]
      exact ih fun b hb => h b (List.mem_cons_of_mem a hb)

/-- `mapSet` makes the entry retrievable. -/
theorem mapFind_mapSet (l : List (String × CachedToken)) (k : String) (v : CachedToken) :
    mapFind (mapSet l k v) k = some v := by
  unfold mapFind mapSet mapErase
  rw [find?_append_of_none]
  · simp [List.find?_cons]
  · rw [List.find?_eq_none]
    intro e he hke
    have := List.of_mem_filter he
    simp at this hke
    exact this hke

/-! ## Claim C1 — where does the cache entry go? -/

/-- C1: the claim says a successfully acquired access token is stored
under the origin of the protected resource that triggered the
acquisition, so that a later cache lookup for that resource finds it.
The code instead stores it under
`getResourceUrl(new Request(tokenEndpoint))`, the origin of the
*authorization server's token endpoint*.  Concretely: a grant performed
at the token endpoint `https://auth.example.com/oauth2/token` on behalf
of the resource `https://mcp.example.com/mcp` succeeds, yet the cache's
only key is `https://auth.example.com`, and the internal lookup the
`fetch` entry point performs for the resource key
`https://mcp.example.com` comes back empty. -/
theorem grant_caches_under_token_endpoint_origin :
    (performJwtBearerGrant [] "jag" "https://auth.example.com/oauth2/token"
        (.response true 200 "OK" (some { access_token := "tok123" })) 0 none).1
      = .ok "tok123"
    ∧ (performJwtBearerGrant [] "jag" "https://auth.example.com/oauth2/token"
        (.response true 200 "OK" (some { access_token := "tok123" })) 0 none).2
      = [("https://auth.example.com", { token := "tok123", expiresAt := 3540000 })]
    ∧ getResourceUrl sampleRequest = "https://mcp.example.com"
    ∧ internalCachedToken
        (performJwtBearerGrant [] "jag" "https://auth.example.com/oauth2/token"
          (.response true 200 "OK" (some { access_token := "tok123" })) 0 none).2
        (getResourceUrl sampleRequest) 0
      = none :=
  ⟨rfl, rfl, rfl, rfl⟩

/-! ## Claim C2 — a failing onAccessTokenReceived hook -/

/-- C2: the claim says a failure of the `onAccessTokenReceived` hook
must not make the acquisition fail once the token exchange itself
succeeded.  The code `await`s the hook with no try/catch, so its
rejection rejects `performJwtBearerGrant` — and with it the whole
acquisition — even though the very same call with no hook configured
returns the token, and even though the token had already been written to
the internal cache before the hook ran. -/
theorem hook_rejection_fails_grant :
    (performJwtBearerGrant [] "jag" "https://auth.example.com/oauth2/token"
        (.response true 200 "OK" (some { access_token := "tok123" })) 0
        (some (.error "hook boom"))).1
      = .error "hook boom"
    ∧ (performJwtBearerGrant [] "jag" "https://auth.example.com/oauth2/token"
        (.response true 200 "OK" (some { access_token := "tok123" })) 0 none).1
      = .ok "tok123"
    ∧ (performJwtBearerGrant [] "jag" "https://auth.example.com/oauth2/token"
        (.response true 200 "OK" (some { access_token := "tok123" })) 0
        (some (.error "hook boom"))).2
      = [("https://auth.example.com", { token := "tok123", expiresAt := 3540000 })] :=
  ⟨rfl, rfl, rfl⟩

/-! ## Claim C7 — discovery path order -/

/-- C7 counterexample: the claim says the `openid-configuration` path is
tried *only if* the first attempt fails with a network error or a
non-2xx response, and that the first successful response is returned.
Here the first attempt returns a 2xx response (neither a network error
nor non-2xx — its body merely fails to parse as JSON), yet the code
still fetches the second path and returns its result. -/
theorem discovery_falls_back_despite_2xx :
    discoveryFetchStub "https://as.example.com/.well-known/oauth-authorization-server"
      = .response true none
    ∧ (discoverAuthorizationServerMetadata discoveryFetchStub "https://as.example.com").2
      = ["https://as.example.com/.well-known/oauth-authorization-server",
         "https://as.example.com/.well-known/openid-configuration"]
    ∧ (discoverAuthorizationServerMetadata discoveryFetchStub "https://as.example.com").1
      = .ok 42 :=
  ⟨rfl, by decide, rfl⟩

/-- C7 as amended: after stripping one trailing slash from the issuer,
the code fetches `/.well-known/oauth-authorization-server` first and
`/.well-known/openid-configuration` second; the second path is fetched
exactly when the first attempt yields no *usable* result (a usable
result being a 2xx response whose body parses as JSON — network errors,
non-2xx responses and unparsable 2xx bodies are all swallowed alike);
the first usable body is returned, and when neither attempt is usable
the call fails with an error naming the original issuer URL. -/
theorem discovery_strict_order {α : Type} (fetchFn : String → FetchOutcome α)
    (issuerUrl : String) :
    (discoverAuthorizationServerMetadata fetchFn issuerUrl).2
      = (if (usableDiscoveryResult (fetchFn (stripTrailingSlash issuerUrl ++
              "/.well-known/oauth-authorization-server"))).isSome
         then [stripTrailingSlash issuerUrl ++ "/.well-known/oauth-authorization-server"]
         else [stripTrailingSlash issuerUrl ++ "/.well-known/oauth-authorization-server",
               stripTrailingSlash issuerUrl ++ "/.well-known/openid-configuration"])
    ∧ (discoverAuthorizationServerMetadata fetchFn issuerUrl).1
      = (match usableDiscoveryResult (fetchFn (stripTrailingSlash issuerUrl ++
              "/.well-known/oauth-authorization-server")) with
         | some v => Except.ok v
         | none =>
           match usableDiscoveryResult (fetchFn (stripTrailingSlash issuerUrl ++
               "/.well-known/openid-configuration")) with
           | some v => Except.ok v
           | none => Except.error
               ("Failed to discover authorization server metadata for " ++ issuerUrl)) := by
  unfold discoverAuthorizationServerMetadata
  cases h1 : usableDiscoveryResult (fetchFn (stripTrailingSlash issuerUrl ++
      "/.well-known/oauth-authorization-server")) with
  | some v => simp [h1]
  | none =>
    cases h2 : usableDiscoveryResult (fetchFn (stripTrailingSlash issuerUrl ++
        "/.well-known/openid-configuration")) with
    | some v => simp [h1, h2]
    | none => simp [h1, h2]

/-! ## Claim C4 — single-flight acquisition per resource key -/

/-- C4: when an acquisition is already pending for the resource key,
`acquireAccessToken` returns that same pending result without starting a
second exchange chain and leaves the pending map untouched; when none is
pending, it registers an entry (visible for the whole time the
acquisition is awaited), receives the fresh acquisition's settlement —
whatever it is, fulfilment or rejection — and the `finally` block
removes the entry unconditionally, restoring the original map. -/
theorem acquire_single_flight (pending : List (String × AcqOutcome))
    (resourceUrl : String) (freshOutcome : AcqOutcome) :
    (∀ p, pendingFind pending resourceUrl = some p →
      acquireAccessToken pending resourceUrl freshOutcome =
        { startedNewAcquisition := false, outcome := p
          pendingDuring := pending, pendingAfter := pending })
    ∧ (pendingFind pending resourceUrl = none →
        (acquireAccessToken pending resourceUrl freshOutcome).startedNewAcquisition = true
        ∧ (acquireAccessToken pending resourceUrl freshOutcome).outcome = freshOutcome
        ∧ pendingFind (acquireAccessToken pending resourceUrl freshOutcome).pendingDuring
            resourceUrl = some freshOutcome
        ∧ (acquireAccessToken pending resourceUrl freshOutcome).pendingAfter = pending
        ∧ pendingFind (acquireAccessToken pending resourceUrl freshOutcome).pendingAfter
            resourceUrl = none) := by
  constructor
  · intro p hp
    unfold acquireAccessToken
    rw [hp]
  · intro hp
    have hnone : ∀ e ∈ pending, ((fun e => e.1 == resourceUrl) e) = false := by
      intro e he
      simp only [pendingFind, Option.map_eq_none'] at hp
      have := List.find?_eq_none.mp hp e he
      simpa using this
    have herase : pendingErase ((resourceUrl, freshOutcome) :: pending) resourceUrl = pending := by
      unfold pendingErase
      rw [List.filter_cons_of_neg (by simp)]
      exact List.filter_eq_self.mpr (by intro e he; simpa using hnone e he)
    refine ⟨?_, ?_, ?_, ?_, ?_⟩
    · simp [acquireAccessToken, hp]
    · simp [acquireAccessToken, hp]
    · simp only [acquireAccessToken, hp]
      simp [pendingFind, List.find?_cons]
    · simp only [acquireAccessToken, hp]; exact herase
    · simp only [acquireAccessToken, hp]; rw [herase]; exact hp

/-- Witness for the single-flight theorem: with an acquisition for
`https://mcp.example.com` already pending, a second call returns the
pending result and starts nothing, even though its own acquisition would
have failed. -/
theorem acquire_single_flight_witness :
    pendingFind [("https://mcp.example.com", AcqOutcome.success "tok")]
        "https://mcp.example.com" = some (AcqOutcome.success "tok")
    ∧ acquireAccessToken [("https://mcp.example.com", AcqOutcome.success "tok")]
        "https://mcp.example.com" (AcqOutcome.failure "boom")
      = { startedNewAcquisition := false, outcome := AcqOutcome.success "tok"
          pendingDuring := [("https://mcp.example.com", AcqOutcome.success "tok")]
          pendingAfter := [("https://mcp.example.com", AcqOutcome.success "tok")] } :=
  ⟨by decide,
   (acquire_single_flight [("https://mcp.example.com", AcqOutcome.success "tok")]
      "https://mcp.example.com" (AcqOutcome.failure "boom")).1
     (AcqOutcome.success "tok") (by decide)⟩

/-! ## Claim C6 — cache expiry arithmetic and lazy eviction -/

/-- On a 2xx response with a parsed body and no failing hook,
`performJwtBearerGrant` returns the access token and stores it under the
token endpoint's origin with
`expiresAt = now + (expires_in || 3600) * 1000 - 60000`. -/
theorem performJwtBearerGrant_success (tokenCache : List (String × CachedToken))
    (idJag tokenEndpoint : String) (body : AccessTokenResponse) (now : Int) :
    performJwtBearerGrant tokenCache idJag tokenEndpoint
        (.response true 200 "OK" (some body)) now none
      = (.ok body.access_token,
         mapSet tokenCache (urlOrigin tokenEndpoint)
           { token := body.access_token
             expiresAt := now + (match body.expires_in with
               | some n => if n == 0 then 3600 else n
               | none => 3600) * 1000 - 60000 }) :=
  rfl

/-- C6: a token acquired at time `T` with `expires_in = 3600` — and
equally when `expires_in` is omitted, 3600 being the default — is stored
with `expiresAt = T + 3600·1000 − 60000` milliseconds, i.e. `T + 3540` s;
the internal cache returns it for every read with `now < T + 3540` s and
treats it as absent from `T + 3540` s on, while the entry itself stays in
the map (lazy eviction — nothing sweeps it). -/
theorem cached_token_expiry_window (tokenCache : List (String × CachedToken))
    (idJag tokenEndpoint tok : String) (expiresInField : Option Int) (T now : Int)
    (hexp : expiresInField = none ∨ expiresInField = some 3600) :
    (performJwtBearerGrant tokenCache idJag tokenEndpoint
        (.response true 200 "OK" (some { access_token := tok, expires_in := expiresInField }))
        T none).1 = .ok tok
    ∧ mapFind (performJwtBearerGrant tokenCache idJag tokenEndpoint
        (.response true 200 "OK" (some { access_token := tok, expires_in := expiresInField }))
        T none).2 (urlOrigin tokenEndpoint)
      = some { token := tok, expiresAt := T + 3540000 }
    ∧ internalCachedToken (performJwtBearerGrant tokenCache idJag tokenEndpoint
        (.response true 200 "OK" (some { access_token := tok, expires_in := expiresInField }))
        T none).2 (urlOrigin tokenEndpoint) now
      = (if now < T + 3540000 then some tok else none) := by
  have harith : T + 3600000 - 60000 = T + 3540000 := by ring
  have hgrant : performJwtBearerGrant tokenCache idJag tokenEndpoint
      (.response true 200 "OK" (some { access_token := tok, expires_in := expiresInField }))
      T none
      = (.ok tok, mapSet tokenCache (urlOrigin tokenEndpoint)
          { token := tok, expiresAt := T + 3540000 }) := by
    rw [performJwtBearerGrant_success]
    rcases hexp with h | h <;> subst h <;> simp <;> rw [harith]
  rw [hgrant]
  refine ⟨rfl, mapFind_mapSet _ _ _, ?_⟩
  unfold internalCachedToken
  rw [mapFind_mapSet]

/-- Witness for the expiry-window theorem at `T = 0`: with
`expires_in = 3600` the entry expires at 3540000 ms, is returned at
`now = 3539999` and would not be at 3540000. -/
theorem cached_token_expiry_window_witness :
    ((some 3600 : Option Int) = none ∨ (some 3600 : Option Int) = some 3600)
    ∧ ((performJwtBearerGrant [] "jag" "https://auth.example.com/oauth2/token"
        (.response true 200 "OK" (some { access_token := "tok", expires_in := some 3600 }))
        0 none).1 = .ok "tok"
      ∧ mapFind (performJwtBearerGrant [] "jag" "https://auth.example.com/oauth2/token"
          (.response true 200 "OK" (some { access_token := "tok", expires_in := some 3600 }))
          0 none).2 (urlOrigin "https://auth.example.com/oauth2/token")
        = some { token := "tok", expiresAt := (0 : Int) + 3540000 }
      ∧ internalCachedToken (performJwtBearerGrant [] "jag" "https://auth.example.com/oauth2/token"
          (.response true 200 "OK" (some { access_token := "tok", expires_in := some 3600 }))
          0 none).2 (urlOrigin "https://auth.example.com/oauth2/token") 3539999
        = (if (3539999 : Int) < 0 + 3540000 then some "tok" else none)) :=
  ⟨Or.inr rfl,
   cached_token_expiry_window [] "jag" "https://auth.example.com/oauth2/token" "tok"
     (some 3600) 0 3539999 (Or.inr rfl)⟩

/-! ## Claim C5 — 401 short-circuits -/

/-- C5: a 401 with no `WWW-Authenticate` header is returned unchanged
with no acquisition (and hence no discovery or exchange traffic, all of
which happens inside `acquireAccessToken`); likewise when the parsed
scheme is not the exact string `Bearer`; a Bearer challenge without
`resource_metadata` raises the fatal configuration error, again with no
acquisition. -/
theorem unauthorized_short_circuits (request : Request) (response : Response)
    (acquisition : Except String String) (retryResponse : Response) :
    (response.headers.get "WWW-Authenticate" = none →
      handleUnauthorized request response acquisition retryResponse = (.ok response, []))
    ∧ (∀ wwwAuth, response.headers.get "WWW-Authenticate" = some wwwAuth →
        (parseWwwAuthenticate wwwAuth).scheme ≠ "Bearer" →
        handleUnauthorized request response acquisition retryResponse = (.ok response, []))
    ∧ (∀ wwwAuth, response.headers.get "WWW-Authenticate" = some wwwAuth →
        (parseWwwAuthenticate wwwAuth).scheme = "Bearer" →
        (parseWwwAuthenticate wwwAuth).resource_metadata = none →
        handleUnauthorized request response acquisition retryResponse
          = (.error "WWW-Authenticate header missing resource_metadata URL", [])) := by
  refine ⟨?_, ?_, ?_⟩
  · intro hget
    unfold handleUnauthorized
    rw [hget]
  · intro wwwAuth hget hne
    unfold handleUnauthorized
    rw [hget]
    simp [hne]
  · intro wwwAuth hget hscheme hmeta
    unfold handleUnauthorized
    rw [hget]
    simp [hscheme, hmeta]

/-- Witness for the short-circuit theorem: a concrete 401 with no
challenge header comes back unchanged with an empty event trace. -/
theorem unauthorized_short_circuits_witness :
    resp401NoHeader.headers.get "WWW-Authenticate" = none
    ∧ handleUnauthorized sampleRequest resp401NoHeader (.ok "tok") ok200
      = (.ok resp401NoHeader, []) :=
  ⟨rfl,
   (unauthorized_short_circuits sampleRequest resp401NoHeader (.ok "tok") ok200).1 rfl⟩

/-! ## Claim C9 — the scheme comparison is case-sensitive -/

/-- C9: `challenge.scheme !== 'Bearer'` compares the parsed scheme with
the exact string `Bearer`; a challenge whose scheme is a different
capitalisation of the same word (lower-casing to `bearer`, e.g. `bearer`
or `BEARER`) therefore takes the non-Bearer branch: the original 401 is
returned unchanged and no acquisition is started, although RFC 7235
matches schemes case-insensitively. -/
theorem scheme_comparison_case_sensitive (request : Request) (response : Response)
    (acquisition : Except String String) (retryResponse : Response) (wwwAuth : String)
    (hget : response.headers.get "WWW-Authenticate" = some wwwAuth)
    (hlower : lowerStr (parseWwwAuthenticate wwwAuth).scheme = "bearer")
    (hne : (parseWwwAuthenticate wwwAuth).scheme ≠ "Bearer") :
    handleUnauthorized request response acquisition retryResponse = (.ok response, []) := by
  unfold handleUnauthorized
  rw [hget]
  simp [hne]

/-- Witness for the case-sensitivity theorem: a `bearer realm="mcp"`
challenge is a Bearer challenge up to case, yet the 401 comes back
unchanged and nothing is acquired. -/
theorem scheme_comparison_case_sensitive_witness :
    resp401LowerBearer.headers.get "WWW-Authenticate" = some "bearer realm=\"mcp\""
    ∧ lowerStr (parseWwwAuthenticate "bearer realm=\"mcp\"").scheme = "bearer"
    ∧ (parseWwwAuthenticate "bearer realm=\"mcp\"").scheme ≠ "Bearer"
    ∧ handleUnauthorized sampleRequest resp401LowerBearer (.ok "tok") ok200
      = (.ok resp401LowerBearer, []) :=
  ⟨by decide, by decide, by decide,
   scheme_comparison_case_sensitive sampleRequest resp401LowerBearer (.ok "tok") ok200
     "bearer realm=\"mcp\"" (by decide) (by decide) (by decide)⟩

/-! ## Claim C3 — how many requests hit the target resource? -/

/-- C3 counterexample: the claim bounds the outbound requests to the
target resource by two on *every* path, including the path where a
cached token is attached, rejected with 401, evicted, and the flow falls
through to the bare attempt.  On exactly that path, when the bare
attempt also draws a 401 with a valid challenge, the code sends a third
request: cached attempt, bare attempt, and the post-acquisition retry. -/
theorem stale_cache_path_sends_three :
    getCachedToken staleCacheEnv.externalCached staleCache
        (getResourceUrl sampleRequest) staleCacheEnv.now = some "cachedTok"
    ∧ countTargetSends (middlewareFetch staleCache sampleRequest staleCacheEnv).2 = 3
    ∧ ¬ countTargetSends (middlewareFetch staleCache sampleRequest staleCacheEnv).2 ≤ 2 := by
  refine ⟨by decide, by decide, by decide⟩

/-- `handleUnauthorized` emits at most one request to the target
resource (the single retry). -/
theorem handleUnauthorized_sends_le_one (request : Request) (response : Response)
    (acquisition : Except String String) (retryResponse : Response) :
    countTargetSends (handleUnauthorized request response acquisition retryResponse).2 ≤ 1 := by
  unfold handleUnauthorized
  cases hw : Response.headers response |>.get "WWW-Authenticate" with
  | none => simp [countTargetSends]
  | some w =>
    dsimp only
    split
    · simp [countTargetSends]
    · cases hm : (parseWwwAuthenticate w).resource_metadata with
      | none => simp [countTargetSends]
      | some md =>
        cases acquisition with
        | error e => simp [countTargetSends, isTargetSend]
        | ok t => simp [countTargetSends, isTargetSend]

/-- The bare attempt plus 401 handling emit at most two more requests to
the target resource than the trace already contains. -/
theorem bareFlow_sends_le (request : Request) (env : FetchEnv) (eventsSoFar : List Event) :
    countTargetSends (middlewareBareFlow request env eventsSoFar).2
      ≤ countTargetSends eventsSoFar + 2 := by
  unfold middlewareBareFlow
  split
  · simp [countTargetSends, List.countP_append, isTargetSend]
  · have h := handleUnauthorized_sends_le_one request env.bareResponse env.acquisition
      env.retryResponse
    simp only [countTargetSends, List.countP_append] at h ⊢
    simp [isTargetSend]
    omega

/-- C3 as amended: a top-level call sends at most three requests to the
target resource — at most one cached-credential attempt, at most one
bare attempt and at most one retry — and at most two whenever no cached
token is attached (the bound of two claimed for every path holds only
there; the stale-cached-token path adds a third). -/
theorem target_send_bound (tokenCache : List (String × CachedToken))
    (request : Request) (env : FetchEnv) :
    countTargetSends (middlewareFetch tokenCache request env).2 ≤ 3
    ∧ (getCachedToken env.externalCached tokenCache (getResourceUrl request) env.now = none →
        countTargetSends (middlewareFetch tokenCache request env).2 ≤ 2) := by
  constructor
  · simp only [middlewareFetch]
    cases hc : getCachedToken env.externalCached tokenCache (getResourceUrl request) env.now with
    | none =>
      have h := bareFlow_sends_le request env []
      simp only [countTargetSends, List.countP_nil] at h
      simpa [countTargetSends] using h.trans (by omega)
    | some tok =>
      dsimp only
      split
      · simp [countTargetSends, isTargetSend]
      · have h := bareFlow_sends_le request env
          [Event.targetSend (cloneRequestWithAuth request tok),
           Event.evictCached (getResourceUrl request)]
        simp [countTargetSends, List.countP_cons, isTargetSend] at h ⊢
        omega
  · intro hc
    simp only [middlewareFetch, hc]
    have h := bareFlow_sends_le request env []
    simp only [countTargetSends, List.countP_nil] at h ⊢
    omega

/-- Witness for the amended bound: with an empty cache nothing is
attached and the whole 401-and-retry flow stays within two requests to
the target resource. -/
theorem target_send_bound_witness :
    getCachedToken staleCacheEnv.externalCached [] (getResourceUrl sampleRequest)
        staleCacheEnv.now = none
    ∧ countTargetSends (middlewareFetch [] sampleRequest staleCacheEnv).2 ≤ 2 :=
  ⟨by decide, (target_send_bound [] sampleRequest staleCacheEnv).2 (by decide)⟩

/-! ## Claim C10 — authenticated requests differ only in Authorization -/

/-- Setting a header makes it retrievable under its own name. -/
theorem headersGet_set_same (h : Headers) (name value : String) :
    (h.set name value).get name = some value := by
  unfold Headers.set Headers.get
  rw [find?_append_of_none]
  · simp [List.find?_cons]
  · rw [List.find?_eq_none]
    intro e he
    have hmem := List.of_mem_filter he
    simpa using hmem

/-- Setting a header leaves every other (case-insensitive) name
unchanged. -/
theorem headersGet_set_other (h : Headers) (name value other : String)
    (hne : lowerStr other ≠ lowerStr name) :
    (h.set name value).get other = h.get other := by
  unfold Headers.set Headers.get
  have hfilter : (h.entries.filter fun e => !(lowerStr e.1 == lowerStr name)).find?
      (fun e => lowerStr e.1 == lowerStr other)
      = h.entries.find? (fun e => lowerStr e.1 == lowerStr other) := by
    apply find?_filter_of_imp
    intro a _ hp
    simp only [beq_iff_eq] at hp
    simp only [Bool.not_eq_true', beq_eq_false_iff_ne, ne_eq]
    rw [hp]
    exact fun hcontra => hne hcontra
  have hsingle : List.find? (fun e => lowerStr e.1 == lowerStr other) [(name, value)]
      = none := by
    rw [List.find?_eq_none]
    intro x hx
    simp only [List.mem_singleton] at hx
    subst hx
    simp only [beq_iff_eq]
    exact fun hcontra => hne hcontra.symm
  rw [List.find?_append, hfilter, hsingle, Option.or_none]

/-- Every request `handleUnauthorized` sends to the target resource is
the original request re-sent with a bearer token attached. -/
theorem handleUnauthorized_targetSends (request : Request) (response : Response)
    (acquisition : Except String String) (retryResponse : Response) (r : Request)
    (hr : Event.targetSend r ∈ (handleUnauthorized request response acquisition retryResponse).2) :
    ∃ t, r = cloneRequestWithAuth request t := by
  unfold handleUnauthorized at hr
  rcases hdr : Response.headers response |>.get "WWW-Authenticate" with _ | w
  · rw [hdr] at hr
    simp at hr
  · rw [hdr] at hr
    by_cases hs : (parseWwwAuthenticate w).scheme = "Bearer"
    · rcases hm : (parseWwwAuthenticate w).resource_metadata with _ | md
      · simp [hs, hm] at hr
      · cases acquisition with
        | error e => simp [hs, hm] at hr
        | ok t =>
          simp [hs, hm] at hr
          exact ⟨t, hr⟩
    · simp [hs] at hr

/-- Every request `middlewareFetch` sends to the target resource is the
caller's request, either verbatim (the bare attempt) or with a bearer
token attached. -/
theorem middlewareFetch_targetSends (tokenCache : List (String × CachedToken))
    (request : Request) (env : FetchEnv) (r : Request)
    (hr : Event.targetSend r ∈ (middlewareFetch tokenCache request env).2) :
    r = request ∨ ∃ t, r = cloneRequestWithAuth request t := by
  have hbare : ∀ pre : List Event,
      Event.targetSend r ∈ (middlewareBareFlow request env pre).2 →
      Event.targetSend r ∈ pre ∨ r = request ∨ ∃ t, r = cloneRequestWithAuth request t := by
    intro pre hpre
    simp only [middlewareBareFlow] at hpre
    by_cases hu : isUnauthorized env.bareResponse = true
    · simp only [hu, Bool.not_true, Bool.false_eq_true, if_false] at hpre
      rw [List.mem_append] at hpre
      rcases hpre with h | h
      · rw [List.mem_append] at h
        rcases h with h | h
        · exact Or.inl h
        · simp at h
          exact Or.inr (Or.inl h)
      · exact Or.inr (Or.inr (handleUnauthorized_targetSends request env.bareResponse
          env.acquisition env.retryResponse r h))
    · rw [Bool.not_eq_true] at hu
      simp only [hu, Bool.not_false, if_true] at hpre
      rw [List.mem_append] at hpre
      rcases hpre with h | h
      · exact Or.inl h
      · simp at h
        exact Or.inr (Or.inl h)
  simp only [middlewareFetch] at hr
  rcases hc : getCachedToken env.externalCached tokenCache (getResourceUrl request) env.now
    with _ | tok
  · rw [hc] at hr
    rcases hbare [] hr with h | h
    · simp at h
    · exact h
  · rw [hc] at hr
    by_cases hca : isUnauthorized env.cachedAttemptResponse = true
    · simp only [hca, Bool.not_true, Bool.false_eq_true, if_false] at hr
      rcases hbare _ hr with h | h
      · simp at h
        exact Or.inr ⟨tok, h⟩
      · exact h
    · rw [Bool.not_eq_true] at hca
      simp only [hca, Bool.not_false, if_true] at hr
      simp at hr
      exact Or.inr ⟨tok, hr⟩

/-- C10: the requests the middleware sends with credentials — the
cached-token attempt and the post-acquisition retry, both built by
`cloneRequestWithAuth` from the caller's request — keep the original
URL, method, body and every header except `Authorization`, which is
overwritten with `Bearer ` followed by the token; and every request the
orchestrator sends to the target resource is the caller's request,
verbatim or so cloned. -/
theorem authenticated_requests_differ_only_in_authorization (request : Request)
    (accessToken other : String) (tokenCache : List (String × CachedToken))
    (env : FetchEnv) (hother : lowerStr other ≠ lowerStr "Authorization") :
    (cloneRequestWithAuth request accessToken).url = request.url
    ∧ (cloneRequestWithAuth request accessToken).method = request.method
    ∧ (cloneRequestWithAuth request accessToken).body = request.body
    ∧ (cloneRequestWithAuth request accessToken).headers.get other
        = request.headers.get other
    ∧ (cloneRequestWithAuth request accessToken).headers.get "Authorization"
        = some ("Bearer " ++ accessToken)
    ∧ (∀ r, Event.targetSend r ∈ (middlewareFetch tokenCache request env).2 →
        r = request ∨ ∃ t, r = cloneRequestWithAuth request t) :=
  ⟨rfl, rfl, rfl,
   headersGet_set_other request.headers "Authorization" ("Bearer " ++ accessToken) other hother,
   headersGet_set_same request.headers "Authorization" ("Bearer " ++ accessToken),
   fun r hr => middlewareFetch_targetSends tokenCache request env r hr⟩

/-- Witness: cloning the sample request with token `tok` keeps its
`Content-Type` header and rewrites `Authorization` to `Bearer tok`. -/
theorem authenticated_requests_witness :
    lowerStr "Content-Type" ≠ lowerStr "Authorization"
    ∧ (cloneRequestWithAuth sampleRequest "tok").headers.get "Content-Type"
        = sampleRequest.headers.get "Content-Type"
    ∧ (cloneRequestWithAuth sampleRequest "tok").headers.get "Authorization"
        = some ("Bearer " ++ "tok") :=
  ⟨by decide,
   (authenticated_requests_differ_only_in_authorization sampleRequest "tok" "Content-Type"
      [] staleCacheEnv (by decide)).2.2.2.1,
   (authenticated_requests_differ_only_in_authorization sampleRequest "tok" "Content-Type"
      [] staleCacheEnv (by decide)).2.2.2.2.1⟩

/-! ## Claim C8 — parser correctness on well-formed headers

The development below proves that on every well-formed rendered
challenge the scan loop recovers exactly the rendered parameter list,
and hence the parser extracts the scheme and every declared recognized
field, whatever the parameter order and quoting style. -/

/-- The scan finds nothing in an empty input, at any fuel. -/
theorem scanMatchF_nil : ∀ f, scanMatchF f [] = none
  | 0 => rfl
  | _ + 1 => rfl

/-- `dropWhile` never lengthens a list. -/
theorem dropWhile_length_le (p : Char → Bool) (l : List Char) :
    (l.dropWhile p).length ≤ l.length := by
  induction l with
  | nil => simp
  | cons a t ih =>
    rw [List.dropWhile_cons]
    split
    · exact Nat.le_succ_of_le ih
    · exact Nat.le_refl _

/-- `takeWhile` never lengthens a list. -/
theorem takeWhile_length_le (p : Char → Bool) (l : List Char) :
    (l.takeWhile p).length ≤ l.length := by
  induction l with
  | nil => simp
  | cons a t ih =>
    rw [List.takeWhile_cons]
    split
    · exact Nat.succ_le_succ ih
    · exact Nat.zero_le _

/-- The remainder after a successful quote split is strictly shorter
than the input. -/
theorem takeUntilQuote_post_lt (ws : List Char) (pre post : List Char)
    (h : takeUntilQuote ws = some (pre, post)) : post.length < ws.length := by
  induction ws generalizing pre post with
  | nil => simp [takeUntilQuote] at h
  | cons a t ih =>
    rw [takeUntilQuote] at h
    split at h
    · obtain ⟨h1, h2⟩ := Prod.mk.injEq _ _ _ _ ▸ Option.some.inj h
      subst h2
      simp
    · split at h
      · obtain hsome := Option.some.inj h
        obtain ⟨h1, h2⟩ := Prod.mk.injEq _ _ _ _ ▸ hsome
        subst h2
        have := ih _ _ (by assumption)
        simpa using Nat.lt_succ_of_lt this
      · exact absurd h (by simp)

/-- The remainder after the value match is never longer than its
input. -/
theorem matchValue_rest_le (vs : List Char) : (matchValue vs).2.length ≤ vs.length := by
  match vs with
  | [] => simp [matchValue, unquotedValue]
  | c :: ws =>
    rw [matchValue]
    split
    · cases htq : takeUntilQuote ws with
      | none => simpa [htq, unquotedValue] using dropWhile_length_le _ (c :: ws)
      | some pp =>
        obtain ⟨pre, post⟩ := pp
        have := takeUntilQuote_post_lt ws pre post htq
        simp only [htq]
        simp
        omega
    · simpa [unquotedValue] using dropWhile_length_le _ (c :: ws)

/-- The scan is insensitive to the fuel, as long as the fuel covers the
input length. -/
theorem scanMatchF_stable : ∀ (f g : Nat) (s : List Char),
    s.length ≤ f → s.length ≤ g → scanMatchF f s = scanMatchF g s := by
  intro f
  induction f with
  | zero =>
    intro g s hf _
    have : s = [] := List.eq_nil_of_length_eq_zero (Nat.le_zero.mp hf)
    subst this
    rw [scanMatchF_nil, scanMatchF_nil]
  | succ f ih =>
    intro g s hf hg
    match s with
    | [] => rw [scanMatchF_nil, scanMatchF_nil]
    | c :: cs =>
      obtain ⟨g', rfl⟩ : ∃ g', g = g' + 1 := by
        cases g with
        | zero => simp at hg
        | succ g' => exact ⟨g', rfl⟩
      simp only [scanMatchF]
      simp only [List.length_cons, Nat.succ_le_succ_iff] at hf hg
      split
      · split
        · rfl
        · exact ih g' _ ((dropWhile_length_le _ cs).trans hf)
            ((dropWhile_length_le _ cs).trans hg)
      · exact ih g' cs hf hg

/-- A successful scan strictly shrinks the input. -/
theorem scanMatchF_rest_lt : ∀ (f : Nat) (s : List Char) (k : String)
    (v : Option String) (rest : List Char),
    scanMatchF f s = some (k, v, rest) → rest.length < s.length := by
  intro f
  induction f with
  | zero => intro s k v rest h; rw [scanMatchF] at h; exact absurd h (by simp)
  | succ f ih =>
    intro s k v rest h
    match s with
    | [] => rw [scanMatchF_nil] at h; exact absurd h (by simp)
    | c :: cs =>
      simp only [scanMatchF] at h
      split at h
      · split at h
        · obtain hsome := Option.some.inj h
          have hrest : rest = (matchValue (List.dropWhile isWordChar cs).tail).2 := by
            have := congrArg (fun x => x.2.2) hsome
            simpa using this.symm
          subst hrest
          have h1 := matchValue_rest_le (List.dropWhile isWordChar cs).tail
          have h2 : (List.dropWhile isWordChar cs).tail.length
              ≤ (List.dropWhile isWordChar cs).length := by
            cases List.dropWhile isWordChar cs <;> simp
          have h3 := dropWhile_length_le isWordChar cs
          simp only [List.length_cons]
          omega
        · have := ih _ _ _ _ h
          have h3 := dropWhile_length_le isWordChar cs
          simp only [List.length_cons]
          omega
      · have := ih _ _ _ _ h
        simp only [List.length_cons]
        omega

/-- A successful top-level scan strictly shrinks the input. -/
theorem scanMatch_rest_lt (s : List Char) (k : String) (v : Option String)
    (rest : List Char) (h : scanMatch s = some (k, v, rest)) : rest.length < s.length :=
  scanMatchF_rest_lt s.length s k v rest h

/-- One-step definitional unfolding of the parameter loop. -/
theorem parseParamsF_succ (n : Nat) (s : List Char) :
    parseParamsF (n + 1) s = (match scanMatch s with
      | none => []
      | some (k, v, rest) => (k, v) :: parseParamsF n rest) := rfl

/-- The parameter loop is insensitive to the fuel, as long as the fuel
covers the input length. -/
theorem parseParamsF_stable : ∀ (f g : Nat) (s : List Char),
    s.length ≤ f → s.length ≤ g → parseParamsF f s = parseParamsF g s := by
  intro f
  induction f with
  | zero =>
    intro g s hf _
    have : s = [] := List.eq_nil_of_length_eq_zero (Nat.le_zero.mp hf)
    subst this
    cases g with
    | zero => rfl
    | succ g' => simp [parseParamsF, scanMatch, scanMatchF_nil]
  | succ f ih =>
    intro g s hf hg
    cases hm : scanMatch s with
    | none =>
      cases g with
      | zero =>
        have : s = [] := List.eq_nil_of_length_eq_zero (Nat.le_zero.mp hg)
        subst this
        rfl
      | succ g' => simp [parseParamsF_succ, hm]
    | some kvr =>
      obtain ⟨k, v, rest⟩ := kvr
      have hlt := scanMatch_rest_lt s k v rest hm
      obtain ⟨g', rfl⟩ : ∃ g', g = g' + 1 := by
        cases g with
        | zero => omega
        | succ g' => exact ⟨g', rfl⟩
      rw [parseParamsF_succ, parseParamsF_succ, hm]
      exact congrArg (List.cons (k, v)) (ih g' rest (by omega) (by omega))

/-- One-step unfolding of `parseParams` in terms of the leftmost
match. -/
theorem parseParams_eq (s : List Char) :
    parseParams s = (match scanMatch s with
      | none => []
      | some (k, v, rest) => (k, v) :: parseParams rest) := by
  unfold parseParams
  cases hn : s.length with
  | zero =>
    have hs : s = [] := List.eq_nil_of_length_eq_zero hn
    subst hs
    rfl
  | succ n =>
    rw [parseParamsF_succ]
    cases hm : scanMatch s with
    | none => rfl
    | some kvr =>
      obtain ⟨k, v, rest⟩ := kvr
      have hlt := scanMatch_rest_lt s k v rest hm
      exact congrArg (List.cons (k, v))
        (parseParamsF_stable n rest.length rest (by omega) (Nat.le_refl _))

/-- Inputs with the same leftmost match parse to the same parameter
list. -/
theorem parseParams_congr (s t : List Char) (h : scanMatch s = scanMatch t) :
    parseParams s = parseParams t := by
  rw [parseParams_eq, parseParams_eq, h]

/-- The scan skips a leading non-word character. -/
theorem scanMatch_cons_skip (c : Char) (cs : List Char) (hc : isWordChar c = false) :
    scanMatch (c :: cs) = scanMatch cs := by
  show scanMatchF (cs.length + 1) (c :: cs) = scanMatchF cs.length cs
  simp only [scanMatchF, hc, Bool.false_eq_true, if_false]

/-- The scan skips a maximal word run that is not followed by `=`. -/
theorem scanMatch_word_run (c : Char) (w' rest : List Char)
    (hall : ∀ x ∈ c :: w', isWordChar x = true)
    (hrest : rest = [] ∨ ∃ d rs, rest = d :: rs ∧ isWordChar d = false ∧ d ≠ '=') :
    scanMatch ((c :: w') ++ rest) = scanMatch rest := by
  have hdrop : List.dropWhile isWordChar (w' ++ rest) = rest := by
    rw [List.dropWhile_append_of_pos (fun a ha => hall a (List.mem_cons_of_mem c ha))]
    rcases hrest with rfl | ⟨d, rs, rfl, hd, _⟩
    · rfl
    · simp [List.dropWhile_cons, hd]
  have hhead : (rest.head? == some '=') = false := by
    rcases hrest with rfl | ⟨d, rs, rfl, _, hd⟩
    · rfl
    · simpa using hd
  show scanMatchF ((w' ++ rest).length + 1) (c :: (w' ++ rest)) = scanMatch rest
  simp only [scanMatchF, hall c (List.mem_cons_self c w'), if_true, hdrop, hhead,
    Bool.false_eq_true, if_false]
  exact scanMatchF_stable _ _ rest (by simp) (Nat.le_refl _)

/-- Splitting at the first quote of `v ++ '"' :: suffix` yields exactly
`(v, suffix)` when `v` contains no quote. -/
theorem takeUntilQuote_append (v suffix : List Char)
    (hv : ∀ x ∈ v, (x == '"') = false) :
    takeUntilQuote (v ++ '"' :: suffix) = some (v, suffix) := by
  induction v with
  | nil => simp [takeUntilQuote]
  | cons a t ih =>
    have ha : (a == '"') = false := hv a (List.mem_cons_self a t)
    rw [List.cons_append, takeUntilQuote]
    rw [ih (fun x hx => hv x (List.mem_cons_of_mem a hx))]
    simp [ha]

/-- The quoted alternative consumes exactly the quoted value. -/
theorem matchValue_quoted (v suffix : List Char) (hv1 : v ≠ [])
    (hv2 : ∀ x ∈ v, (x == '"') = false) :
    matchValue ('"' :: (v ++ '"' :: suffix)) = (some (String.mk v), suffix) := by
  rw [matchValue, takeUntilQuote_append v suffix hv2]
  simp [hv1]

/-- The unquoted alternative consumes exactly the value when the suffix
starts with the separator comma (or is empty). -/
theorem matchValue_unquoted (v suffix : List Char) (hv1 : v ≠ [])
    (hv2 : ∀ x ∈ v, goodValueChar x = true)
    (hs : suffix = [] ∨ ∃ rs, suffix = ',' :: rs) :
    matchValue (v ++ suffix) = (some (String.mk v), suffix) := by
  obtain ⟨a, t, rfl⟩ : ∃ a t, v = a :: t := by
    cases v with
    | nil => exact absurd rfl hv1
    | cons a t => exact ⟨a, t, rfl⟩
  have hgood : ∀ x ∈ a :: t, (!(isValueStop x)) = true := by
    intro x hx
    have := hv2 x hx
    simp only [goodValueChar, Bool.and_eq_true] at this
    exact this.1
  have ha : (a == '"') = false := by
    have := hv2 a (List.mem_cons_self a t)
    simp only [goodValueChar, Bool.and_eq_true, Bool.not_eq_true'] at this
    exact this.2
  have hcomma : isValueStop ',' = true := by decide
  have htail : List.takeWhile (fun c => !(isValueStop c)) suffix = []
      ∧ List.dropWhile (fun c => !(isValueStop c)) suffix = suffix := by
    rcases hs with rfl | ⟨rs, rfl⟩
    · exact ⟨rfl, rfl⟩
    · constructor
      · rw [List.takeWhile_cons]
        simp [hcomma]
      · rw [List.dropWhile_cons]
        simp [hcomma]
  rw [List.cons_append, matchValue, if_neg (by simp [ha])]
  unfold unquotedValue
  rw [← List.cons_append, List.takeWhile_append_of_pos hgood,
    List.dropWhile_append_of_pos hgood, htail.1, htail.2, List.append_nil]

/-- A word run followed by `=` produces a match: the key is the whole
run and the value is matched from the rest. -/
theorem scanMatch_key_eq (c : Char) (k' vrest : List Char)
    (hall : ∀ x ∈ c :: k', isWordChar x = true) :
    scanMatch ((c :: k') ++ '=' :: vrest)
      = some (String.mk (c :: k'), (matchValue vrest).1, (matchValue vrest).2) := by
  have heq : isWordChar '=' = false := by decide
  have hdrop : List.dropWhile isWordChar (k' ++ '=' :: vrest) = '=' :: vrest := by
    rw [List.dropWhile_append_of_pos (fun a ha => hall a (List.mem_cons_of_mem c ha))]
    simp [List.dropWhile_cons, heq]
  have htake : List.takeWhile isWordChar (k' ++ '=' :: vrest) = k' := by
    rw [List.takeWhile_append_of_pos (fun a ha => hall a (List.mem_cons_of_mem c ha))]
    simp [List.takeWhile_cons, heq]
  show scanMatchF ((k' ++ '=' :: vrest).length + 1) (c :: (k' ++ '=' :: vrest)) = _
  simp only [scanMatchF, hall c (List.mem_cons_self c k'), if_true, hdrop, htake,
    List.head?_cons, List.tail_cons]
  simp

/-- A well-formed rendered parameter followed by a comma separator (or
the end of the header) scans to exactly its key and value, leaving the
suffix untouched. -/
theorem scanMatch_param (p : ParamSpec) (suffix : List Char) (hp : goodParam p = true)
    (hs : suffix = [] ∨ ∃ rs, suffix = ',' :: rs) :
    scanMatch (paramChars p ++ suffix) = some (p.key, some p.value, suffix) := by
  simp only [goodParam, Bool.and_eq_true] at hp
  obtain ⟨hkey, hval⟩ := hp
  have hkne : p.key.data ≠ [] := by
    simp only [goodToken, Bool.and_eq_true] at hkey
    simpa using hkey.1
  have hkall : ∀ x ∈ p.key.data, isWordChar x = true := by
    simp only [goodToken, Bool.and_eq_true, List.all_eq_true] at hkey
    exact hkey.2
  obtain ⟨c, k', hk⟩ : ∃ c k', p.key.data = c :: k' := by
    cases hck : p.key.data with
    | nil => exact absurd hck hkne
    | cons c k' => exact ⟨c, k', rfl⟩
  by_cases hq : p.quoted = true
  · have hv : p.value.data ≠ [] ∧ ∀ x ∈ p.value.data, (x == '"') = false := by
      simp only [hq, if_true, Bool.and_eq_true, List.all_eq_true] at hval
      exact ⟨by simpa using hval.1, fun x hx => by simpa using hval.2 x hx⟩
    have hrender : paramChars p ++ suffix
        = (c :: k') ++ '=' :: ('"' :: (p.value.data ++ '"' :: suffix)) := by
      simp [paramChars, hq, hk, List.append_assoc]
    rw [hrender, scanMatch_key_eq c k' _ (hk ▸ hkall)]
    rw [matchValue_quoted p.value.data suffix hv.1 hv.2]
    rw [← hk]
  · have hq2 : p.quoted = false := by simpa using hq
    have hv : p.value.data ≠ [] ∧ ∀ x ∈ p.value.data, goodValueChar x = true := by
      simp only [hq2, Bool.false_eq_true, if_false, Bool.and_eq_true, List.all_eq_true] at hval
      exact ⟨by simpa using hval.1, hval.2⟩
    have hrender : paramChars p ++ suffix
        = (c :: k') ++ '=' :: (p.value.data ++ suffix) := by
      simp [paramChars, hq2, hk, List.append_assoc]
    rw [hrender, scanMatch_key_eq c k' _ (hk ▸ hkall)]
    rw [matchValue_unquoted p.value.data suffix hv.1 hv.2 hs]
    rw [← hk]

/-- Skipping the comma-space separator between rendered parameters. -/
theorem parseParams_comma_space (s : List Char) :
    parseParams (',' :: ' ' :: s) = parseParams s :=
  parseParams_congr _ _ (by
    rw [scanMatch_cons_skip ',' (' ' :: s) (by decide), scanMatch_cons_skip ' ' s (by decide)])

/-- The parameter loop recovers exactly a rendered well-formed parameter
list. -/
theorem parseParams_goodList : ∀ (ps : List ParamSpec),
    (∀ p ∈ ps, goodParam p = true) →
    parseParams (paramsChars ps) = ps.map (fun p => (p.key, some p.value)) := by
  intro ps
  induction ps with
  | nil => intro _; rfl
  | cons p tail ih =>
    intro hgood
    cases tail with
    | nil =>
      have h1 : scanMatch (paramChars p) = some (p.key, some p.value, []) := by
        have := scanMatch_param p [] (hgood p (List.mem_cons_self p [])) (Or.inl rfl)
        simpa using this
      rw [show paramsChars [p] = paramChars p from rfl, parseParams_eq, h1]
      rfl
    | cons q r =>
      have h1 := scanMatch_param p (',' :: ' ' :: paramsChars (q :: r))
        (hgood p (List.mem_cons_self p (q :: r)))
        (Or.inr ⟨' ' :: paramsChars (q :: r), rfl⟩)
      rw [show paramsChars (p :: q :: r)
          = paramChars p ++ ',' :: ' ' :: paramsChars (q :: r) from rfl]
      rw [parseParams_eq, h1]
      dsimp only
      rw [parseParams_comma_space]
      rw [ih (fun x hx => hgood x (List.mem_cons_of_mem p hx))]
      rfl

/-- The parameter loop ignores the leading scheme token and recovers the
rendered parameter list of a full well-formed header. -/
theorem parseParams_header (scheme : String) (ps : List ParamSpec)
    (hscheme : goodToken scheme = true) (hps : ∀ p ∈ ps, goodParam p = true) :
    parseParams (scheme.data ++ ' ' :: paramsChars ps)
      = ps.map (fun p => (p.key, some p.value)) := by
  have hne : scheme.data ≠ [] := by
    simp only [goodToken, Bool.and_eq_true] at hscheme
    simpa using hscheme.1
  have hall : ∀ x ∈ scheme.data, isWordChar x = true := by
    simp only [goodToken, Bool.and_eq_true, List.all_eq_true] at hscheme
    exact hscheme.2
  obtain ⟨c, w', hw⟩ : ∃ c w', scheme.data = c :: w' := by
    cases hck : scheme.data with
    | nil => exact absurd hck hne
    | cons c w' => exact ⟨c, w', rfl⟩
  rw [hw]
  have hskip := scanMatch_word_run c w' (' ' :: paramsChars ps) (hw ▸ hall)
    (Or.inr ⟨' ', paramsChars ps, rfl, by decide, by decide⟩)
  rw [parseParams_congr _ _ hskip,
    parseParams_congr _ _ (scanMatch_cons_skip ' ' (paramsChars ps) (by decide))]
  exact parseParams_goodList ps hps

/-- `applyParam` never touches the scheme. -/
theorem applyParam_scheme (ch : WwwAuthenticateChallenge) (kv : String × Option String) :
    (applyParam ch kv).scheme = ch.scheme := by
  unfold applyParam
  split <;> rfl

/-- Folding parameters never touches the scheme. -/
theorem foldl_applyParam_scheme (l : List (String × Option String))
    (ch : WwwAuthenticateChallenge) : (l.foldl applyParam ch).scheme = ch.scheme := by
  induction l generalizing ch with
  | nil => rfl
  | cons kv t ih => rw [List.foldl_cons, ih, applyParam_scheme]

/-- A freshly initialised challenge has no recognized field set. -/
theorem fieldGet_init (name scheme0 : String) :
    fieldGet name { scheme := scheme0 } = none := by
  unfold fieldGet
  split <;> rfl

/-- One `applyParam` step, seen through `fieldGet`: the named field is
overwritten exactly when the parameter key is that name. -/
theorem applyParam_fieldGet (name : String) (hname : name ∈ recognizedKeys)
    (ch : WwwAuthenticateChallenge) (kv : String × Option String) :
    fieldGet name (applyParam ch kv) = if kv.1 = name then kv.2 else fieldGet name ch := by
  simp only [recognizedKeys, List.mem_cons, List.not_mem_nil, or_false] at hname
  rcases hname with rfl | rfl | rfl | rfl | rfl <;>
    · unfold applyParam
      split <;> simp_all [fieldGet]

/-- Folding parameters none of which carries the given name leaves that
field unchanged. -/
theorem foldl_fieldGet_not_mem (name : String) (hname : name ∈ recognizedKeys)
    (l : List (String × Option String)) (ch : WwwAuthenticateChallenge)
    (h : ∀ kv ∈ l, kv.1 ≠ name) :
    fieldGet name (l.foldl applyParam ch) = fieldGet name ch := by
  induction l generalizing ch with
  | nil => rfl
  | cons kv t ih =>
    rw [List.foldl_cons, ih _ (fun x hx => h x (List.mem_cons_of_mem kv hx))]
    rw [applyParam_fieldGet name hname, if_neg (h kv (List.mem_cons_self kv t))]

/-- With pairwise distinct keys, folding the parameter list gives each
recognized field the value of its unique occurrence, if any. -/
theorem foldl_fieldGet_lookup (name : String) (hname : name ∈ recognizedKeys)
    (l : List (String × Option String)) (ch : WwwAuthenticateChallenge)
    (hnd : (l.map Prod.fst).Nodup) :
    fieldGet name (l.foldl applyParam ch)
      = (match l.find? (fun kv => kv.1 == name) with
         | some kv => kv.2
         | none => fieldGet name ch) := by
  induction l generalizing ch with
  | nil => rfl
  | cons kv t ih =>
    rw [List.foldl_cons]
    by_cases hk : kv.1 = name
    · rw [List.find?_cons_of_pos _ (by simp [hk])]
      have hhead : kv.1 ∉ t.map Prod.fst := by
        rw [List.map_cons, List.nodup_cons] at hnd
        exact hnd.1
      have hnot : ∀ x ∈ t, x.1 ≠ name := by
        intro x hx hxname
        exact hhead (by rw [hk, ← hxname]; exact List.mem_map_of_mem Prod.fst hx)
      rw [foldl_fieldGet_not_mem name hname t _ hnot]
      rw [applyParam_fieldGet name hname, if_pos hk]
    · rw [List.find?_cons_of_neg _ (by simp [hk])]
      have hnd' : (t.map Prod.fst).Nodup := by
        rw [List.map_cons, List.nodup_cons] at hnd
        exact hnd.2
      rw [ih _ hnd']
      cases hf : List.find? (fun kv => kv.1 == name) t with
      | none => rw [applyParam_fieldGet name hname, if_neg hk]
      | some kv' => rfl

/-- Searching the rendered pair list is searching the parameter list. -/
theorem find?_mapped_params (ps : List ParamSpec) (name : String) :
    List.find? (fun kv => kv.1 == name) (ps.map fun p => (p.key, some p.value))
      = (ps.find? fun p => p.key == name).map (fun p => (p.key, some p.value)) := by
  induction ps with
  | nil => rfl
  | cons p t ih =>
    rw [List.map_cons, List.find?_cons, List.find?_cons]
    by_cases hk : (p.key == name) = true
    · simp [hk]
    · simp only [Bool.not_eq_true] at hk
      simp [hk, ih]

/-- `fieldGet` at the literal name `realm` is the `realm` field. -/
theorem fieldGet_realm (ch : WwwAuthenticateChallenge) : fieldGet "realm" ch = ch.realm := rfl

/-- `fieldGet` at the literal name `scope` is the `scope` field. -/
theorem fieldGet_scope (ch : WwwAuthenticateChallenge) : fieldGet "scope" ch = ch.scope := rfl

/-- `fieldGet` at the literal name `error` is the `error` field. -/
theorem fieldGet_error (ch : WwwAuthenticateChallenge) : fieldGet "error" ch = ch.error := rfl

/-- `fieldGet` at the literal name `error_description` is the
`error_description` field. -/
theorem fieldGet_error_description (ch : WwwAuthenticateChallenge) :
    fieldGet "error_description" ch = ch.error_description := rfl

/-- `fieldGet` at the literal name `resource_metadata` is the
`resource_metadata` field. -/
theorem fieldGet_resource_metadata (ch : WwwAuthenticateChallenge) :
    fieldGet "resource_metadata" ch = ch.resource_metadata := rfl

/-- C8: on every well-formed Bearer challenge header — any scheme token,
any ordering of the parameters, any per-parameter choice of quoted or
unquoted rendering, unknown parameter names freely interleaved —
`parseWwwAuthenticate` extracts the scheme exactly as the leading token
and gives each of the five recognized fields precisely the value the
header declares for it (absent when undeclared, unknown keys ignored).
The parser is a total function, so no input raises an error. -/
theorem parse_extracts_declared_fields (scheme : String) (ps : List ParamSpec)
    (h : GoodHeader scheme ps) :
    (parseWwwAuthenticate (renderChallengeHeader scheme ps)).scheme = scheme
    ∧ (parseWwwAuthenticate (renderChallengeHeader scheme ps)).realm
        = declaredValue ps "realm"
    ∧ (parseWwwAuthenticate (renderChallengeHeader scheme ps)).scope
        = declaredValue ps "scope"
    ∧ (parseWwwAuthenticate (renderChallengeHeader scheme ps)).error
        = declaredValue ps "error"
    ∧ (parseWwwAuthenticate (renderChallengeHeader scheme ps)).error_description
        = declaredValue ps "error_description"
    ∧ (parseWwwAuthenticate (renderChallengeHeader scheme ps)).resource_metadata
        = declaredValue ps "resource_metadata" := by
  obtain ⟨hsch, hps, hnd⟩ := h
  have hdata : (renderChallengeHeader scheme ps).data
      = scheme.data ++ ' ' :: paramsChars ps := rfl
  have hparams : parseParams (renderChallengeHeader scheme ps).data
      = ps.map (fun p => (p.key, some p.value)) := by
    rw [hdata]
    exact parseParams_header scheme ps hsch hps
  have hall : ∀ x ∈ scheme.data, isWordChar x = true := by
    simp only [goodToken, Bool.and_eq_true, List.all_eq_true] at hsch
    exact hsch.2
  have hschemeTok : String.mk ((renderChallengeHeader scheme ps).data.takeWhile isWordChar)
      = scheme := by
    rw [hdata]
    have htw : (scheme.data ++ ' ' :: paramsChars ps).takeWhile isWordChar
        = scheme.data := by
      rw [List.takeWhile_append_of_pos hall, List.takeWhile_cons]
      simp [show isWordChar ' ' = false from by decide]
    rw [htw]
  have hmapfst : (ps.map fun p => (p.key, some p.value)).map Prod.fst
      = ps.map ParamSpec.key := by
    rw [List.map_map]
    rfl
  have hnd' : ((ps.map fun p => (p.key, some p.value)).map Prod.fst).Nodup := by
    rw [hmapfst]
    exact hnd
  unfold parseWwwAuthenticate
  rw [hparams, hschemeTok]
  have hfield : ∀ name, name ∈ recognizedKeys →
      fieldGet name ((ps.map fun p => (p.key, some p.value)).foldl applyParam
        { scheme := scheme }) = declaredValue ps name := by
    intro name hname
    rw [foldl_fieldGet_lookup name hname _ _ hnd']
    rw [find?_mapped_params]
    cases hf : ps.find? (fun p => p.key == name) with
    | none => simp [declaredValue, hf, fieldGet_init]
    | some p => simp [declaredValue, hf]
  refine ⟨?_, ?_, ?_, ?_, ?_, ?_⟩
  · rw [foldl_applyParam_scheme]
  · rw [← fieldGet_realm]
    exact hfield "realm" (by decide)
  · rw [← fieldGet_scope]
    exact hfield "scope" (by decide)
  · rw [← fieldGet_error]
    exact hfield "error" (by decide)
  · rw [← fieldGet_error_description]
    exact hfield "error_description" (by decide)
  · rw [← fieldGet_resource_metadata]
    exact hfield "resource_metadata" (by decide)

/-- Witness for the parser theorem: a header with a quoted
`resource_metadata` and an unquoted `scope`, in that order, parses to
exactly those two fields. -/
theorem parse_extracts_declared_fields_witness :
    GoodHeader "Bearer" sampleParams
    ∧ ((parseWwwAuthenticate (renderChallengeHeader "Bearer" sampleParams)).scheme = "Bearer"
      ∧ (parseWwwAuthenticate (renderChallengeHeader "Bearer" sampleParams)).realm
          = declaredValue sampleParams "realm"
      ∧ (parseWwwAuthenticate (renderChallengeHeader "Bearer" sampleParams)).scope
          = declaredValue sampleParams "scope"
      ∧ (parseWwwAuthenticate (renderChallengeHeader "Bearer" sampleParams)).error
          = declaredValue sampleParams "error"
      ∧ (parseWwwAuthenticate (renderChallengeHeader "Bearer" sampleParams)).error_description
          = declaredValue sampleParams "error_description"
      ∧ (parseWwwAuthenticate (renderChallengeHeader "Bearer" sampleParams)).resource_metadata
          = declaredValue sampleParams "resource_metadata") :=
  ⟨by decide, parse_extracts_declared_fields "Bearer" sampleParams (by decide)⟩
